import Mathlib

/-!
Verification of the vikos training engine (`src/src/lib.rs`).

The generic floating-point scalar (`Model::Target` = `Cost::Error`) is embedded
as the exact field `ℚ`; histories (`IntoIterator` of events) are embedded as
finite lists; a Rust `&mut` coefficient slot is split into a read and a write
operation; `Vec<Target>` velocity buffers are lists of rationals.
-/

namespace Vikos

/-- Embedding of the `Cost` trait (lib.rs 40-52): a cost is determined by its
`gradient` method, the derivative of the cost with respect to one coefficient
given the prediction, the truth and the model's own partial derivative. -/
structure Cost where
  gradient : ℚ → ℚ → ℚ → ℚ

/-- Embedding of the `Model` trait (lib.rs 20-37) over a coefficient-state type
`S` and an input type `Input`.  The Rust method
`coefficent(&mut self, i) -> &mut Target` hands out a mutable reference to the
i-th coefficient slot; it is split here into the read `coefficent` and the
write `set_coefficent`.  `num_coefficents` is constant over a model instance's
lifetime, so it is a plain number. -/
structure ModelImpl (S Input : Type) where
  predict : S → Input → ℚ
  num_coefficents : ℕ
  gradient : S → ℕ → Input → ℚ
  coefficent : S → ℕ → ℚ
  set_coefficent : S → ℕ → ℚ → S

variable {S Input : Type}

/-- The `Model : Clone` bound: duplication produces an independent copy with the
same coefficients.  Model states are pure values in this embedding, so the
duplicate is the value itself. -/
def ModelImpl.clone (_m : ModelImpl S Input) (s : S) : S := s

/-- A Rust `Vec` read `velocity[ci]`, totalised with default `0`; the
bounds-checked rendering `inert_step_checked` proves the default is never
consulted when the buffer is long enough. -/
def getq (v : List ℚ) (i : ℕ) : ℚ := v.getD i 0

/-- Embedding of the `Teacher` trait (lib.rs 55-60). -/
structure Teacher (S Input : Type) where
  teach_event : Cost → S → Input → ℚ → S

/-- Embedding of `teach_history` (lib.rs 63-73): feeds every `(features, truth)` event of the
history to the teacher, in iteration order. -/
def teach_history (teacher : Teacher S Input) (cost : Cost) (model : S)
    (history : List (Input × ℚ)) : S :=
  history.foldl (fun s ft => teacher.teach_event cost s ft.1 ft.2) model

/-- The loop of `inert_gradient_descent_step` generalised over the list of
coefficient indices it visits; the body is the loop body of lib.rs 93-97
verbatim, and the source instantiates `order` with `0..num_coefficents()`
(see `inert_gradient_descent_step`). -/
def inert_step_order (cost : Cost) (m : ModelImpl S Input) (model : S)
    (features : Input) (truth learning_rate inertia : ℚ) (velocity : List ℚ)
    (order : List ℕ) : S × List ℚ :=
  let inv_inertia := 1 - inertia
  let prediction := m.predict model features
  order.foldl
    (fun sv ci =>
      let v := inertia * getq sv.2 ci -
        inv_inertia * learning_rate *
          cost.gradient prediction truth (m.gradient sv.1 ci features)
      (m.set_coefficent sv.1 ci (m.coefficent sv.1 ci + v), sv.2.set ci v))
    (model, velocity)

/-- Embedding of `inert_gradient_descent_step` (lib.rs 79-98): computes `prediction` once,
then for `ci in 0..model.num_coefficents()` assigns
`velocity[ci] = inertia*velocity[ci] - (1-inertia)*learning_rate*cost.gradient(prediction, truth, model.gradient(ci, features))`
and then adds the new `velocity[ci]` to the `ci`-th coefficient. -/
def inert_gradient_descent_step (cost : Cost) (m : ModelImpl S Input) (model : S)
    (features : Input) (truth learning_rate inertia : ℚ)
    (velocity : List ℚ) : S × List ℚ :=
  let inv_inertia := 1 - inertia
  let prediction := m.predict model features
  (List.range m.num_coefficents).foldl
    (fun sv ci =>
      let v := inertia * getq sv.2 ci -
        inv_inertia * learning_rate *
          cost.gradient prediction truth (m.gradient sv.1 ci features)
      (m.set_coefficent sv.1 ci (m.coefficent sv.1 ci + v), sv.2.set ci v))
    (model, velocity)

/-- Modelled from the spec: the canonical plain-SGD teacher
`train::GradientDescent` (the `train` module is not under src/).  Per spec 4.3
it holds a single immutable learning rate. -/
structure GradientDescent where
  learning_rate : ℚ

/-- Modelled from the spec: `teach_event` of `train::GradientDescent` (spec 4.3,
module not under src/): compute `prediction = model.predict(features)` once per
event, then for each coefficient index `i` in increasing order update
`coefficient(i) ← coefficient(i) − η·cost.gradient(prediction, truth, model.gradient(i, features))`,
all gradients taken at the pre-update coefficient state. -/
def GradientDescent.teach_event (t : GradientDescent) (cost : Cost)
    (m : ModelImpl S Input) (model : S) (features : Input) (truth : ℚ) : S :=
  let prediction := m.predict model features
  (List.range m.num_coefficents).foldl
    (fun s ci =>
      m.set_coefficent s ci
        (m.coefficent s ci -
          t.learning_rate * cost.gradient prediction truth (m.gradient model ci features)))
    model

/-- Packaging of the plain-SGD teacher as a `Teacher` trait object for a fixed
model implementation. -/
def GradientDescent.toTeacher (t : GradientDescent) (m : ModelImpl S Input) :
    Teacher S Input :=
  ⟨fun cost s f tr => t.teach_event cost m s f tr⟩

/-- Embedding of `stochastic_gradient_descent` (lib.rs 101-115): builds the plain-SGD teacher,
clones `start` into `next`, and drives `next` through every event of the
history. -/
def stochastic_gradient_descent (cost : Cost) (m : ModelImpl S Input) (start : S)
    (history : List (Input × ℚ)) (learning_rate : ℚ) : S :=
  let training : GradientDescent := ⟨learning_rate⟩
  let next := m.clone start
  history.foldl (fun next ft => training.teach_event cost m next ft.1 ft.2) next

/-- The event loop of `inert_stochastic_gradient_descent` (lib.rs 136-139):
threads the trained model together with the one velocity buffer through the
history. -/
def inert_run (cost : Cost) (m : ModelImpl S Input) (learning_rate inertia : ℚ)
    (sv : S × List ℚ) (history : List (Input × ℚ)) : S × List ℚ :=
  history.foldl
    (fun sv ft =>
      inert_gradient_descent_step cost m sv.1 ft.1 ft.2 learning_rate inertia sv.2)
    sv

/-- Embedding of `inert_stochastic_gradient_descent` (lib.rs 121-142): allocates a velocity
buffer of `num_coefficents` zeros, clones `start` into `next`, runs the event
loop, and returns only the model component (the buffer is discarded). -/
def inert_stochastic_gradient_descent (cost : Cost) (m : ModelImpl S Input)
    (start : S) (history : List (Input × ℚ)) (learning_rate inertia : ℚ) : S :=
  let velocity := List.replicate m.num_coefficents (0 : ℚ)
  let next := m.clone start
  (inert_run cost m learning_rate inertia (next, velocity) history).1

/-- The claim-side description of one momentum step: starting at index `i`, in
increasing index order, first set the velocity entry from the old velocity and
the cost gradient, then set the coefficient to its previous value plus the new
velocity entry, with a fixed `prediction` computed once beforehand. -/
def inert_step_from (cost : Cost) (m : ModelImpl S Input) (features : Input)
    (truth learning_rate inertia prediction : ℚ) (i : ℕ) (s : S) (v : List ℚ) :
    S × List ℚ :=
  if _h : i < m.num_coefficents then
    let vi := inertia * getq v i -
      (1 - inertia) * learning_rate *
        cost.gradient prediction truth (m.gradient s i features)
    inert_step_from cost m features truth learning_rate inertia prediction (i + 1)
      (m.set_coefficent s i (m.coefficent s i + vi)) (v.set i vi)
  else (s, v)
termination_by m.num_coefficents - i

/-- Bounds-checked rendering of `inert_gradient_descent_step`: every
`velocity[ci]` access checks `ci < velocity.length` (a Rust `Vec` index panics
out of bounds) and every `model.gradient`/`model.coefficent` call checks the
contract `ci < num_coefficents`; a violation aborts the step with `none`. -/
def inert_step_checked (cost : Cost) (m : ModelImpl S Input) (model : S)
    (features : Input) (truth learning_rate inertia : ℚ)
    (velocity : List ℚ) : Option (S × List ℚ) :=
  let inv_inertia := 1 - inertia
  let prediction := m.predict model features
  (List.range m.num_coefficents).foldlM
    (fun (sv : S × List ℚ) ci =>
      if ci < sv.2.length ∧ ci < m.num_coefficents then
        let v := inertia * getq sv.2 ci -
          inv_inertia * learning_rate *
            cost.gradient prediction truth (m.gradient sv.1 ci features)
        some (m.set_coefficent sv.1 ci (m.coefficent sv.1 ci + v), sv.2.set ci v)
      else none)
    (model, velocity)

/-- Modelled from the spec: the one-dimensional `model::Linear` (the `model`
module is not under src/), `predict (m, c) x = m·x + c`, coefficient 0 the
slope `m` and coefficient 1 the intercept `c`. -/
structure Linear where
  m : ℚ
  c : ℚ
deriving DecidableEq

/-- Modelled from the spec: the `Model` implementation of `model::Linear`
(module not under src/): two coefficients, gradients `x` and `1`, independent
of the coefficient state. -/
def linearModel : ModelImpl Linear ℚ where
  predict s x := s.m * x + s.c
  num_coefficents := 2
  gradient _ i x := if i = 0 then x else if i = 1 then 1 else 0
  coefficent s i := if i = 0 then s.m else if i = 1 then s.c else 0
  set_coefficent s i v :=
    if i = 0 then { s with m := v } else if i = 1 then { s with c := v } else s

/-- Modelled from the spec: `cost::LeastSquares` (the `cost` module is not
under src/): the derivative of the squared error (p − t)² with respect to a
coefficient whose partial derivative of the prediction is g, by the chain rule
2·(p − t)·g. -/
def LeastSquares : Cost := ⟨fun prediction truth g => 2 * (prediction - truth) * g⟩

/-- A contract-conforming `Model` instance used as a test input: over state
(a, b) it predicts a·b, so its gradient (∂/∂a = b, ∂/∂b = a) genuinely depends
on the current coefficient values, as the library's logistic model does. -/
def prodModel : ModelImpl (ℚ × ℚ) Unit where
  predict s _ := s.1 * s.2
  num_coefficents := 2
  gradient s i _ := if i = 0 then s.2 else if i = 1 then s.1 else 0
  coefficent s i := if i = 0 then s.1 else if i = 1 then s.2 else 0
  set_coefficent s i v :=
    if i = 0 then (v, s.2) else if i = 1 then (s.1, v) else s

/-- The three-event history of the `linear_stochastic_gradient_descent` test
(lib.rs 220). -/
def linearHistory : List (ℚ × ℚ) := [(0, 3), (1, 4), (2, 5)]

/-- Embedding of `history.iter().cycle().take(20)` of the test (lib.rs 227): the first 20
events of the cycled three-event history. -/
def linearHistory20 : List (ℚ × ℚ) := (List.replicate 7 linearHistory).flatten.take 20

/-- The final model of the `linear_stochastic_gradient_descent` test
(lib.rs 212-233): start m = 0, c = 0, least-squares cost, learning rate 0.2,
20 cycled presentations driven through `teach_history`. -/
def linearFinal : Linear :=
  teach_history (GradientDescent.toTeacher ⟨1/5⟩ linearModel) LeastSquares
    ⟨0, 0⟩ linearHistory20

/-- The loop body of `inert_gradient_descent_step` (lib.rs 95-96) as a named
function of the running `(model, velocity)` pair and the coefficient index. -/
def stepBody (cost : Cost) (m : ModelImpl S Input) (features : Input)
    (truth learning_rate inertia prediction : ℚ) (sv : S × List ℚ) (ci : ℕ) :
    S × List ℚ :=
  let v := inertia * getq sv.2 ci -
    (1 - inertia) * learning_rate *
      cost.gradient prediction truth (m.gradient sv.1 ci features)
  (m.set_coefficent sv.1 ci (m.coefficent sv.1 ci + v), sv.2.set ci v)

/-- Instrumentation of an arbitrary teacher: alongside the model state it keeps
a log, and each `teach_event` call appends the `(features, truth)` pair it was
called with. -/
def logTeacher (t : Teacher S Input) : Teacher (S × List (Input × ℚ)) Input :=
  ⟨fun cost sl f tr => (t.teach_event cost sl.1 f tr, sl.2 ++ [(f, tr)])⟩

lemma inert_step_from_eq_foldl (cost : Cost) (m : ModelImpl S Input)
    (features : Input) (truth lr inertia prediction : ℚ) :
    ∀ (k i : ℕ), m.num_coefficents - i = k → ∀ (s : S) (v : List ℚ),
      (List.range' i k).foldl
        (fun sv ci =>
          let vv := inertia * getq sv.2 ci -
            (1 - inertia) * lr *
              cost.gradient prediction truth (m.gradient sv.1 ci features)
          (m.set_coefficent sv.1 ci (m.coefficent sv.1 ci + vv), sv.2.set ci vv))
        (s, v) =
      inert_step_from cost m features truth lr inertia prediction i s v := by
  intro k
  induction k with
  | zero =>
    intro i hi s v
    rw [inert_step_from]
    simp [Nat.not_lt.mpr (Nat.le_of_sub_eq_zero hi)]
  | succ k ih =>
    intro i hi s v
    have hlt : i < m.num_coefficents := by omega
    rw [List.range'_succ, List.foldl_cons, inert_step_from, dif_pos hlt]
    exact ih (i + 1) (by omega) _ _

lemma teach_history_logTeacher (t : Teacher S Input) (cost : Cost) :
    ∀ (history : List (Input × ℚ)) (s : S) (log : List (Input × ℚ)),
      teach_history (logTeacher t) cost (s, log) history =
        (teach_history t cost s history, log ++ history) := by
  intro history
  induction history with
  | nil => intro s log; simp [teach_history]
  | cons e l ih =>
    intro s log
    simp only [teach_history, List.foldl_cons] at ih ⊢
    rw [show (logTeacher t).teach_event cost (s, log) e.1 e.2 =
      (t.teach_event cost s e.1 e.2, log ++ [e]) from rfl, ih]
    simp

/-- C1: with a velocity buffer at least `num_coefficents()` long,
`inert_gradient_descent_step` computes the prediction once and then, for each
coefficient index `i` from `0` to `num_coefficents()-1` in increasing order,
first sets `velocity[i]` to
`inertia·velocity[i] − (1−inertia)·learning_rate·cost.gradient(prediction, truth, model.gradient(i, features))`
and then sets coefficient `i` to its previous value plus the new `velocity[i]`. -/
theorem inert_step_is_increasing_index_updates (cost : Cost) (m : ModelImpl S Input)
    (model : S) (features : Input) (truth learning_rate inertia : ℚ)
    (velocity : List ℚ) (hlen : m.num_coefficents ≤ velocity.length) :
    inert_gradient_descent_step cost m model features truth learning_rate inertia velocity =
      inert_step_from cost m features truth learning_rate inertia
        (m.predict model features) 0 model velocity := by
  have h := inert_step_from_eq_foldl cost m features truth learning_rate inertia
    (m.predict model features) m.num_coefficents 0 (by omega) model velocity
  simpa [inert_gradient_descent_step, List.range_eq_range'] using h

/-- C3: `teach_history` calls `teach_event` exactly once per history element, in
iteration order, and performs no other mutation of the model: the instrumented
teacher logs exactly the history, and the model component evolves exactly by
those calls. -/
theorem teach_history_calls_each_event_once (t : Teacher S Input) (cost : Cost)
    (s : S) (history : List (Input × ℚ)) :
    teach_history (logTeacher t) cost (s, []) history =
      (teach_history t cost s history, history) := by
  simpa using teach_history_logTeacher t cost history s []

/-- C4: `stochastic_gradient_descent` and `inert_stochastic_gradient_descent`
train a duplicate of `start` and return that duplicate; the duplicate has the
same coefficients as `start`, and `start` itself — a pure value never written
to by either function body — is unchanged. -/
theorem sgd_trains_duplicate (cost : Cost) (m : ModelImpl S Input) (start : S)
    (history : List (Input × ℚ)) (learning_rate inertia : ℚ) :
    stochastic_gradient_descent cost m start history learning_rate =
        teach_history (GradientDescent.toTeacher ⟨learning_rate⟩ m) cost
          (m.clone start) history ∧
      inert_stochastic_gradient_descent cost m start history learning_rate inertia =
        (inert_run cost m learning_rate inertia
          (m.clone start, List.replicate m.num_coefficents 0) history).1 ∧
      m.clone start = start ∧
      ∀ i, m.coefficent (m.clone start) i = m.coefficent start i :=
  ⟨rfl, rfl, rfl, fun _ => rfl⟩

/-- C5: `inert_stochastic_gradient_descent` starts from a fresh velocity buffer
of length exactly `num_coefficents()` with every entry zero, threads that one
buffer through all events via `inert_run`, and returns only the model component
(the buffer is not persisted with the returned model). -/
theorem inert_sgd_velocity_buffer (cost : Cost) (m : ModelImpl S Input)
    (start : S) (history : List (Input × ℚ)) (learning_rate inertia : ℚ) :
    (List.replicate m.num_coefficents (0 : ℚ)).length = m.num_coefficents ∧
      (∀ i < m.num_coefficents, getq (List.replicate m.num_coefficents (0 : ℚ)) i = 0) ∧
      inert_stochastic_gradient_descent cost m start history learning_rate inertia =
        (inert_run cost m learning_rate inertia
          (m.clone start, List.replicate m.num_coefficents (0 : ℚ)) history).1 := by
  refine ⟨List.length_replicate _ _, fun i hi => ?_, rfl⟩
  simp [getq, List.getElem?_replicate, hi]

/-- C7: the three history-driven loops are structural recursions on the history
list — the empty history gives back the initial state at once, and a history
`e :: l` performs exactly one per-event update for `e` followed by the loop on
`l`; termination on every finite history is by exhaustion of the list. -/
theorem training_loops_exhaust_history (t : Teacher S Input) (cost : Cost)
    (m : ModelImpl S Input) (s start : S) (e : Input × ℚ)
    (l history : List (Input × ℚ)) (learning_rate inertia : ℚ) (sv : S × List ℚ) :
    teach_history t cost s [] = s ∧
      teach_history t cost s (e :: l) =
        teach_history t cost (t.teach_event cost s e.1 e.2) l ∧
      stochastic_gradient_descent cost m start [] learning_rate = m.clone start ∧
      stochastic_gradient_descent cost m start (e :: l) learning_rate =
        stochastic_gradient_descent cost m
          (GradientDescent.teach_event ⟨learning_rate⟩ cost m (m.clone start) e.1 e.2)
          l learning_rate ∧
      inert_run cost m learning_rate inertia sv [] = sv ∧
      inert_run cost m learning_rate inertia sv (e :: l) =
        inert_run cost m learning_rate inertia
          (inert_gradient_descent_step cost m sv.1 e.1 e.2 learning_rate inertia sv.2) l ∧
      inert_stochastic_gradient_descent cost m start history learning_rate inertia =
        (inert_run cost m learning_rate inertia
          (m.clone start, List.replicate m.num_coefficents 0) history).1 :=
  ⟨rfl, rfl, rfl, rfl, rfl, rfl, rfl⟩

/-- C10: on an empty history both training drivers perform no teaching step and
return a duplicate of `start` with the same coefficients. -/
theorem sgd_empty_history (cost : Cost) (m : ModelImpl S Input) (start : S)
    (learning_rate inertia : ℚ) :
    stochastic_gradient_descent cost m start [] learning_rate = start ∧
      inert_stochastic_gradient_descent cost m start [] learning_rate inertia = start ∧
      (∀ i, m.coefficent (stochastic_gradient_descent cost m start [] learning_rate) i =
        m.coefficent start i) ∧
      (∀ i, m.coefficent
          (inert_stochastic_gradient_descent cost m start [] learning_rate inertia) i =
        m.coefficent start i) :=
  ⟨rfl, rfl, fun _ => rfl, fun _ => rfl⟩

lemma inert_step_eq_stepBody (cost : Cost) (m : ModelImpl S Input) (model : S)
    (features : Input) (truth learning_rate inertia : ℚ) (velocity : List ℚ) :
    inert_gradient_descent_step cost m model features truth learning_rate inertia velocity =
      (List.range m.num_coefficents).foldl
        (stepBody cost m features truth learning_rate inertia (m.predict model features))
        (model, velocity) := rfl

lemma inert_step_order_eq_stepBody (cost : Cost) (m : ModelImpl S Input) (model : S)
    (features : Input) (truth learning_rate inertia : ℚ) (velocity : List ℚ)
    (order : List ℕ) :
    inert_step_order cost m model features truth learning_rate inertia velocity order =
      order.foldl
        (stepBody cost m features truth learning_rate inertia (m.predict model features))
        (model, velocity) := rfl

lemma getq_set_ne (v : List ℚ) (i j : ℕ) (a : ℚ) (h : i ≠ j) :
    getq (v.set i a) j = getq v j := by
  simp [getq, List.getElem?_set_ne h]

lemma getq_set_self_zero (v : List ℚ) (i : ℕ) (hv : ∀ j, getq v j = 0) (j : ℕ) :
    getq (v.set i 0) j = 0 := by
  rcases eq_or_ne i j with h | h
  · subst h
    simp only [getq, List.getD_eq_getElem?_getD, List.getElem?_set]
    split
    · split <;> simp
    · simpa [getq, List.getD_eq_getElem?_getD] using hv i
  · simpa [getq_set_ne v i j 0 h] using hv j

lemma getq_replicate_zero (n j : ℕ) : getq (List.replicate n (0 : ℚ)) j = 0 := by
  simp only [getq, List.getD_eq_getElem?_getD, List.getElem?_replicate]
  split <;> rfl

lemma linearModel_coefficent_set_same (s : Linear) (i : ℕ) (v : ℚ)
    (hi : i < linearModel.num_coefficents) :
    linearModel.coefficent (linearModel.set_coefficent s i v) i = v := by
  have hi2 : i < 2 := hi
  interval_cases i <;> rfl

lemma linearModel_coefficent_set_other (s : Linear) (i j : ℕ) (v : ℚ)
    (hj : j < linearModel.num_coefficents) (hij : j ≠ i) :
    linearModel.coefficent (linearModel.set_coefficent s j v) i =
      linearModel.coefficent s i := by
  have hj2 : j < 2 := hj
  interval_cases j
  · have hi : i ≠ 0 := hij.symm
    simp [linearModel, hi]
  · have hi : i ≠ 1 := hij.symm
    simp [linearModel, hi]

lemma linearModel_set_set_comm (s : Linear) (i j : ℕ) (u v : ℚ)
    (hi : i < linearModel.num_coefficents) (hj : j < linearModel.num_coefficents)
    (hij : i ≠ j) :
    linearModel.set_coefficent (linearModel.set_coefficent s i u) j v =
      linearModel.set_coefficent (linearModel.set_coefficent s j v) i u := by
  have hi2 : i < 2 := hi
  have hj2 : j < 2 := hj
  interval_cases i <;> interval_cases j <;> first | rfl | exact absurd rfl hij

lemma inert_checked_go (cost : Cost) (m : ModelImpl S Input) (features : Input)
    (truth learning_rate inertia prediction : ℚ) :
    ∀ (l : List ℕ), (∀ ci ∈ l, ci < m.num_coefficents) →
      ∀ (s : S) (v : List ℚ), m.num_coefficents ≤ v.length →
        (l.foldlM
          (fun (sv : S × List ℚ) ci =>
            if ci < sv.2.length ∧ ci < m.num_coefficents then
              let vv := inertia * getq sv.2 ci -
                (1 - inertia) * learning_rate *
                  cost.gradient prediction truth (m.gradient sv.1 ci features)
              some (m.set_coefficent sv.1 ci (m.coefficent sv.1 ci + vv), sv.2.set ci vv)
            else none)
          (s, v)) =
        some (l.foldl (stepBody cost m features truth learning_rate inertia prediction)
          (s, v)) := by
  intro l
  induction l with
  | nil => intro _ s v _; rfl
  | cons ci l ih =>
    intro hl s v hv
    have hci : ci < m.num_coefficents := hl ci (List.mem_cons_self _ _)
    have hcv : ci < v.length := lt_of_lt_of_le hci hv
    rw [List.foldlM_cons, List.foldl_cons]
    rw [if_pos ⟨hcv, hci⟩]
    simp only [stepBody, Option.bind_eq_bind, Option.some_bind]
    exact ih (fun x hx => hl x (List.mem_cons_of_mem _ hx)) _ _
      (by simpa using hv)

lemma inert_one_go (cost : Cost) (m : ModelImpl S Input) (features : Input)
    (truth learning_rate prediction : ℚ)
    (hgs : ∀ (s : S) (i : ℕ) (v : ℚ), i < m.num_coefficents →
      m.coefficent (m.set_coefficent s i v) i = v)
    (hgo : ∀ (s : S) (i j : ℕ) (v : ℚ), j < m.num_coefficents → j ≠ i →
      m.coefficent (m.set_coefficent s j v) i = m.coefficent s i) :
    ∀ (l : List ℕ), (∀ ci ∈ l, ci < m.num_coefficents) → ∀ (s : S) (v : List ℚ),
      (∀ j, getq v j = 0) →
      (∀ i, m.coefficent
          ((l.foldl (stepBody cost m features truth learning_rate 1 prediction) (s, v)).1) i =
        m.coefficent s i) ∧
      (∀ j, getq
          ((l.foldl (stepBody cost m features truth learning_rate 1 prediction) (s, v)).2) j =
        0) := by
  intro l
  induction l with
  | nil => intro _ s v hv; exact ⟨fun _ => rfl, hv⟩
  | cons ci l ih =>
    intro hl s v hv
    have hci : ci < m.num_coefficents := hl ci (List.mem_cons_self _ _)
    have hstep : stepBody cost m features truth learning_rate 1 prediction (s, v) ci =
        (m.set_coefficent s ci (m.coefficent s ci + 0), v.set ci 0) := by
      have hvv : (1 : ℚ) * getq v ci -
          (1 - 1) * learning_rate *
            cost.gradient prediction truth (m.gradient s ci features) = 0 := by
        rw [hv ci]; ring
      simp only [stepBody]
      rw [hvv]
    rw [List.foldl_cons, hstep]
    obtain ⟨ihc, ihv⟩ := ih (fun x hx => hl x (List.mem_cons_of_mem _ hx))
      (m.set_coefficent s ci (m.coefficent s ci + 0)) (v.set ci 0)
      (getq_set_self_zero v ci hv)
    refine ⟨fun i => ?_, ihv⟩
    rw [ihc i]
    rcases eq_or_ne ci i with h | h
    · subst h; rw [hgs s ci _ hci, add_zero]
    · exact hgo s i ci _ hci h

lemma inert_run_one (cost : Cost) (m : ModelImpl S Input) (learning_rate : ℚ)
    (hgs : ∀ (s : S) (i : ℕ) (v : ℚ), i < m.num_coefficents →
      m.coefficent (m.set_coefficent s i v) i = v)
    (hgo : ∀ (s : S) (i j : ℕ) (v : ℚ), j < m.num_coefficents → j ≠ i →
      m.coefficent (m.set_coefficent s j v) i = m.coefficent s i) :
    ∀ (history : List (Input × ℚ)) (sv : S × List ℚ), (∀ j, getq sv.2 j = 0) →
      (∀ i, m.coefficent ((inert_run cost m learning_rate 1 sv history).1) i =
        m.coefficent sv.1 i) ∧
      (∀ j, getq ((inert_run cost m learning_rate 1 sv history).2) j = 0) := by
  intro history
  induction history with
  | nil => intro sv hv; exact ⟨fun _ => rfl, hv⟩
  | cons e rest ih =>
    intro sv hv
    have hone := inert_one_go cost m e.1 e.2 learning_rate (m.predict sv.1 e.1) hgs hgo
      (List.range m.num_coefficents) (fun ci hci => List.mem_range.mp hci) sv.1 sv.2 hv
    rw [← inert_step_eq_stepBody] at hone
    have hnext : inert_run cost m learning_rate 1 sv (e :: rest) =
        inert_run cost m learning_rate 1
          (inert_gradient_descent_step cost m sv.1 e.1 e.2 learning_rate 1 sv.2) rest := rfl
    obtain ⟨ihc, ihv⟩ := ih
      (inert_gradient_descent_step cost m sv.1 e.1 e.2 learning_rate 1 sv.2) hone.2
    rw [hnext]
    exact ⟨fun i => (ihc i).trans (hone.1 i), ihv⟩

/-- C6: when the velocity buffer is at least `num_coefficents()` long, every
index used to read or write the velocity buffer and every index passed to
`model.gradient` and `model.coefficent` is in bounds: the bounds-checked step
never takes its out-of-bounds error branch and agrees with
`inert_gradient_descent_step`. -/
theorem inert_step_checked_in_bounds (cost : Cost) (m : ModelImpl S Input)
    (model : S) (features : Input) (truth learning_rate inertia : ℚ)
    (velocity : List ℚ) (hlen : m.num_coefficents ≤ velocity.length) :
    inert_step_checked cost m model features truth learning_rate inertia velocity =
      some (inert_gradient_descent_step cost m model features truth learning_rate
        inertia velocity) := by
  have h := inert_checked_go cost m features truth learning_rate inertia
    (m.predict model features) (List.range m.num_coefficents)
    (fun ci hci => List.mem_range.mp hci) model velocity hlen
  rw [inert_step_eq_stepBody]
  simpa [inert_step_checked] using h

/-- C2 amended: only the cached `prediction` is taken from the pre-update
coefficient state; `model.gradient(i, features)` is evaluated on the partially
updated model inside the loop.  Consequently order-independence holds for
models whose gradient does not depend on the coefficient state (and whose
coefficient slots are independent), not for every model: under those
hypotheses, processing the coefficient indices in any permutation of the
increasing order yields the final state of `inert_gradient_descent_step`. -/
theorem inert_step_any_order_of_state_free_gradient (cost : Cost)
    (m : ModelImpl S Input) (model : S) (features : Input)
    (truth learning_rate inertia : ℚ) (velocity : List ℚ) (order : List ℕ)
    (hperm : order.Perm (List.range m.num_coefficents))
    (hg : ∀ (s s' : S) (i : ℕ) (x : Input), m.gradient s i x = m.gradient s' i x)
    (hgo : ∀ (s : S) (i j : ℕ) (v : ℚ), j < m.num_coefficents → j ≠ i →
      m.coefficent (m.set_coefficent s j v) i = m.coefficent s i)
    (hss : ∀ (s : S) (i j : ℕ) (u v : ℚ), i < m.num_coefficents →
      j < m.num_coefficents → i ≠ j →
      m.set_coefficent (m.set_coefficent s i u) j v =
        m.set_coefficent (m.set_coefficent s j v) i u) :
    inert_step_order cost m model features truth learning_rate inertia velocity order =
      inert_gradient_descent_step cost m model features truth learning_rate inertia
        velocity := by
  rw [inert_step_order_eq_stepBody, inert_step_eq_stepBody]
  refine List.Perm.foldl_eq' hperm ?_ (model, velocity)
  intro x hx y hy sv
  have hxn : x < m.num_coefficents := List.mem_range.mp (hperm.mem_iff.mp hx)
  have hyn : y < m.num_coefficents := List.mem_range.mp (hperm.mem_iff.mp hy)
  rcases eq_or_ne x y with hxy | hxy
  · subst hxy; rfl
  obtain ⟨s, v⟩ := sv
  have hgx : ∀ s' : S, m.gradient s' x features = m.gradient model x features :=
    fun s' => hg s' model x features
  have hgy : ∀ s' : S, m.gradient s' y features = m.gradient model y features :=
    fun s' => hg s' model y features
  have hq1 : ∀ a : ℚ, getq (v.set x a) y = getq v y :=
    fun a => getq_set_ne v x y a hxy
  have hq2 : ∀ a : ℚ, getq (v.set y a) x = getq v x :=
    fun a => getq_set_ne v y x a hxy.symm
  have hc1 : ∀ (s' : S) (a : ℚ),
      m.coefficent (m.set_coefficent s' x a) y = m.coefficent s' y :=
    fun s' a => hgo s' y x a hxn hxy
  have hc2 : ∀ (s' : S) (a : ℚ),
      m.coefficent (m.set_coefficent s' y a) x = m.coefficent s' x :=
    fun s' a => hgo s' x y a hyn hxy.symm
  simp only [stepBody, hgx, hgy, hq1, hq2, hc1, hc2]
  rw [hss s x y _ _ hxn hyn hxy, List.set_comm _ _ _ hxy]

/-- C9: with inertia equal to one, every velocity entry stays zero through the
whole run and the returned model's coefficients equal the start model's
coefficients. -/
theorem inert_sgd_inertia_one_is_identity (cost : Cost) (m : ModelImpl S Input)
    (start : S) (history : List (Input × ℚ)) (learning_rate : ℚ)
    (hgs : ∀ (s : S) (i : ℕ) (v : ℚ), i < m.num_coefficents →
      m.coefficent (m.set_coefficent s i v) i = v)
    (hgo : ∀ (s : S) (i j : ℕ) (v : ℚ), j < m.num_coefficents → j ≠ i →
      m.coefficent (m.set_coefficent s j v) i = m.coefficent s i) :
    (∀ i, m.coefficent
        (inert_stochastic_gradient_descent cost m start history learning_rate 1) i =
      m.coefficent start i) ∧
    (∀ j, getq ((inert_run cost m learning_rate 1
        (m.clone start, List.replicate m.num_coefficents 0) history).2) j = 0) := by
  have h := inert_run_one cost m learning_rate hgs hgo history
    (m.clone start, List.replicate m.num_coefficents 0)
    (fun j => getq_replicate_zero _ j)
  exact ⟨h.1, h.2⟩

section

attribute [local semireducible] Rat.add Rat.sub Rat.mul Rat.inv

/-- C2 as stated is false on the code: for the product model (whose gradient
depends on the coefficients, like the logistic model), processing the
coefficient indices in the order [1, 0] yields different final coefficients
than the increasing order [0, 1] of `inert_gradient_descent_step`, because the
per-coefficient gradients are taken from the partially updated model, not from
the pre-update state. -/
theorem inert_step_order_matters :
    (inert_step_order LeastSquares prodModel (1, 2) () (3/2) 1 0 [0, 0] [1, 0]).1 ≠
      (inert_gradient_descent_step LeastSquares prodModel (1, 2) () (3/2) 1 0
        [0, 0]).1 := by
  decide

/-- C8: training the linear model from m = 0, c = 0 with the least-squares cost
at learning rate 0.2 over the 20 cycled presentations of
[(0,3), (1,4), (2,5)] lands strictly inside 0.9 < m < 1.1 and
2.9 < c < 3.1. -/
theorem linear_regression_test_converges :
    9/10 < linearFinal.m ∧ linearFinal.m < 11/10 ∧
      29/10 < linearFinal.c ∧ linearFinal.c < 31/10 := by
  decide

theorem inert_step_is_increasing_index_updates_witness :
    linearModel.num_coefficents ≤ ([0, 0] : List ℚ).length ∧
      inert_gradient_descent_step LeastSquares linearModel ⟨0, 0⟩ 1 3 (1/5) (9/10)
          [0, 0] =
        inert_step_from LeastSquares linearModel 1 3 (1/5) (9/10)
          (linearModel.predict ⟨0, 0⟩ 1) 0 ⟨0, 0⟩ [0, 0] :=
  ⟨by decide,
    inert_step_is_increasing_index_updates LeastSquares linearModel ⟨0, 0⟩ 1 3 (1/5)
      (9/10) [0, 0] (by decide)⟩

theorem inert_step_any_order_of_state_free_gradient_witness :
    ([1, 0] : List ℕ).Perm (List.range linearModel.num_coefficents) ∧
      inert_step_order LeastSquares linearModel ⟨1, 2⟩ 3 5 (1/2) (9/10) [0, 0]
          [1, 0] =
        inert_gradient_descent_step LeastSquares linearModel ⟨1, 2⟩ 3 5 (1/2) (9/10)
          [0, 0] :=
  ⟨by decide,
    inert_step_any_order_of_state_free_gradient LeastSquares linearModel ⟨1, 2⟩ 3 5
      (1/2) (9/10) [0, 0] [1, 0] (by decide) (fun _ _ _ _ => rfl)
      (fun s i j v hj hij => linearModel_coefficent_set_other s i j v hj hij)
      (fun s i j u v hi hj hij => linearModel_set_set_comm s i j u v hi hj hij)⟩

theorem inert_step_checked_in_bounds_witness :
    linearModel.num_coefficents ≤ ([0, 0] : List ℚ).length ∧
      inert_step_checked LeastSquares linearModel ⟨0, 0⟩ 1 3 (1/5) (9/10) [0, 0] =
        some (inert_gradient_descent_step LeastSquares linearModel ⟨0, 0⟩ 1 3 (1/5)
          (9/10) [0, 0]) :=
  ⟨by decide,
    inert_step_checked_in_bounds LeastSquares linearModel ⟨0, 0⟩ 1 3 (1/5) (9/10)
      [0, 0] (by decide)⟩

theorem inert_sgd_inertia_one_is_identity_witness :
    linearModel.coefficent
        (inert_stochastic_gradient_descent LeastSquares linearModel ⟨5, 7⟩
          [(2, 9)] (1/2) 1) 0 =
      linearModel.coefficent ⟨5, 7⟩ 0 :=
  (inert_sgd_inertia_one_is_identity LeastSquares linearModel ⟨5, 7⟩ [(2, 9)] (1/2)
    (fun s i v hi => linearModel_coefficent_set_same s i v hi)
    (fun s i j v hj hij => linearModel_coefficent_set_other s i j v hj hij)).1 0

end

end Vikos
